import Mathlib

/-!
Shallow embedding of the MilesConnect Route & Load Optimization Engine.

The definitions below are translated from the repository sources:
the Go optimization service (haversine `Distance`, `SolveTSPNearestNeighbor`,
the HTTP handlers) and the TypeScript routing service.  Floating-point
numbers are idealized as real numbers (for the geographic solver) or as
rationals (for the weight-based allocator).  Where the repository snapshot
only contains callers of a function, the function itself is modelled from
the specification and marked as such in its doc comment.
-/

set_option maxHeartbeats 1000000

/-- GPS location, translated from the Go `Coordinate` struct
(fields `Lat`, `Lon`, `ID`). -/
structure Coordinate where
  lat : ℝ
  lon : ℝ
  id : String

/-- Two-argument arctangent with the semantics of Go `math.Atan2`
on finite inputs: the angle of the point `(x, y)` in `(-π, π]`. -/
noncomputable def atan2 (y x : ℝ) : ℝ :=
  if 0 < x then Real.arctan (y / x)
  else if x < 0 then
    (if 0 ≤ y then Real.arctan (y / x) + Real.pi else Real.arctan (y / x) - Real.pi)
  else
    (if 0 < y then Real.pi / 2 else if y < 0 then -(Real.pi / 2) else 0)

/-- Haversine great-circle distance in kilometres, translated from the Go
function `Distance` of the optimization service (Earth radius 6371 km). -/
noncomputable def Distance (p1 p2 : Coordinate) : ℝ :=
  let R : ℝ := 6371
  let dLat := (p2.lat - p1.lat) * (Real.pi / 180)
  let dLon := (p2.lon - p1.lon) * (Real.pi / 180)
  let lat1 := p1.lat * (Real.pi / 180)
  let lat2 := p2.lat * (Real.pi / 180)
  let a := Real.sin (dLat / 2) * Real.sin (dLat / 2) +
    Real.sin (dLon / 2) * Real.sin (dLon / 2) * Real.cos lat1 * Real.cos lat2
  let c := 2 * atan2 (Real.sqrt a) (Real.sqrt (1 - a))
  R * c

/-- Largest finite IEEE-754 double, the initial value of `minDist` in the
Go nearest-neighbour loop (`math.MaxFloat64`). -/
noncomputable def maxFloat64 : ℝ := ((2 : ℝ) ^ 53 - 1) * 2 ^ 971

theorem atan2_lt_five (y x : ℝ) : atan2 y x < 5 := by
  have hpi : Real.pi < 3.15 := by
    have := Real.pi_lt_d2
    linarith
  have hpi0 : 0 < Real.pi := Real.pi_pos
  unfold atan2
  split_ifs with h1 h2 h3 h4 h5
  · have := Real.arctan_lt_pi_div_two (y / x)
    linarith
  · have := Real.arctan_lt_pi_div_two (y / x)
    linarith
  · have := Real.arctan_lt_pi_div_two (y / x)
    linarith
  · linarith
  · linarith
  · linarith

theorem Distance_lt_maxFloat64 (p q : Coordinate) : Distance p q < maxFloat64 := by
  have h5 := atan2_lt_five
    (Real.sqrt (Real.sin ((q.lat - p.lat) * (Real.pi / 180) / 2) *
        Real.sin ((q.lat - p.lat) * (Real.pi / 180) / 2) +
      Real.sin ((q.lon - p.lon) * (Real.pi / 180) / 2) *
        Real.sin ((q.lon - p.lon) * (Real.pi / 180) / 2) *
        Real.cos (p.lat * (Real.pi / 180)) * Real.cos (q.lat * (Real.pi / 180))))
    (Real.sqrt (1 - (Real.sin ((q.lat - p.lat) * (Real.pi / 180) / 2) *
        Real.sin ((q.lat - p.lat) * (Real.pi / 180) / 2) +
      Real.sin ((q.lon - p.lon) * (Real.pi / 180) / 2) *
        Real.sin ((q.lon - p.lon) * (Real.pi / 180) / 2) *
        Real.cos (p.lat * (Real.pi / 180)) * Real.cos (q.lat * (Real.pi / 180)))))
  have hbig : (63710 : ℝ) < maxFloat64 := by
    unfold maxFloat64
    norm_num
  simp only [Distance]
  linarith

/-- C6: the geo distance function is symmetric and has identity at equal
points: `Distance a b = Distance b a` for all coordinates, and
`Distance a a = 0`, where `Distance` is the haversine great-circle distance
with Earth radius 6371 km. -/
theorem C6_distance_symm_and_zero :
    (∀ p q : Coordinate, Distance p q = Distance q p) ∧
    (∀ p : Coordinate, Distance p p = 0) := by
  constructor
  · intro p q
    simp only [Distance]
    have hlat : Real.sin ((q.lat - p.lat) * (Real.pi / 180) / 2) *
        Real.sin ((q.lat - p.lat) * (Real.pi / 180) / 2) =
        Real.sin ((p.lat - q.lat) * (Real.pi / 180) / 2) *
        Real.sin ((p.lat - q.lat) * (Real.pi / 180) / 2) := by
      rw [show (q.lat - p.lat) * (Real.pi / 180) / 2 =
        -((p.lat - q.lat) * (Real.pi / 180) / 2) by ring, Real.sin_neg]
      ring
    have hlon : Real.sin ((q.lon - p.lon) * (Real.pi / 180) / 2) *
        Real.sin ((q.lon - p.lon) * (Real.pi / 180) / 2) =
        Real.sin ((p.lon - q.lon) * (Real.pi / 180) / 2) *
        Real.sin ((p.lon - q.lon) * (Real.pi / 180) / 2) := by
      rw [show (q.lon - p.lon) * (Real.pi / 180) / 2 =
        -((p.lon - q.lon) * (Real.pi / 180) / 2) by ring, Real.sin_neg]
      ring
    have ha : Real.sin ((q.lat - p.lat) * (Real.pi / 180) / 2) *
        Real.sin ((q.lat - p.lat) * (Real.pi / 180) / 2) +
        Real.sin ((q.lon - p.lon) * (Real.pi / 180) / 2) *
        Real.sin ((q.lon - p.lon) * (Real.pi / 180) / 2) *
        Real.cos (p.lat * (Real.pi / 180)) * Real.cos (q.lat * (Real.pi / 180)) =
        Real.sin ((p.lat - q.lat) * (Real.pi / 180) / 2) *
        Real.sin ((p.lat - q.lat) * (Real.pi / 180) / 2) +
        Real.sin ((p.lon - q.lon) * (Real.pi / 180) / 2) *
        Real.sin ((p.lon - q.lon) * (Real.pi / 180) / 2) *
        Real.cos (q.lat * (Real.pi / 180)) * Real.cos (p.lat * (Real.pi / 180)) := by
      rw [hlat, hlon]
      ring
    rw [ha]
  · intro p
    simp only [Distance, sub_self, zero_mul, zero_div, Real.sin_zero, mul_zero, zero_add,
      Real.sqrt_zero, sub_zero, Real.sqrt_one]
    have h1 : atan2 0 1 = 0 := by
      unfold atan2
      rw [if_pos (by norm_num : (0 : ℝ) < 1)]
      simp [Real.arctan_zero]
    rw [h1]
    ring

/-- One pass of the inner selection loop of `SolveTSPNearestNeighbor`,
translated from the Go source: scan `remaining` keeping the index and
distance of the strictly closest stop seen so far (`nearestIdx`,
`minDist`).  The accumulator starts at `(-1, math.MaxFloat64)`. -/
noncomputable def selectNearestAux (current : Coordinate) :
    List Coordinate → Nat → Int → ℝ → Int × ℝ
  | [], _, bestIdx, bestDist => (bestIdx, bestDist)
  | stop :: rest, i, bestIdx, bestDist =>
    if Distance current stop < bestDist then
      selectNearestAux current rest (i + 1) (i : Int) (Distance current stop)
    else
      selectNearestAux current rest (i + 1) bestIdx bestDist

/-- The inner loop of `SolveTSPNearestNeighbor` over the whole pool. -/
noncomputable def selectNearest (current : Coordinate) (remaining : List Coordinate) :
    Int × ℝ :=
  selectNearestAux current remaining 0 (-1) maxFloat64

theorem selectNearestAux_spec (current : Coordinate) :
    ∀ (l : List Coordinate) (i0 : Nat) (bIdx : Int) (bDist : ℝ),
      (selectNearestAux current l i0 bIdx bDist = (bIdx, bDist) ∧
        ∀ k (hk : k < l.length), bDist ≤ Distance current (l.get ⟨k, hk⟩)) ∨
      (∃ k, ∃ hk : k < l.length,
        selectNearestAux current l i0 bIdx bDist =
          (((i0 + k : Nat) : Int), Distance current (l.get ⟨k, hk⟩)) ∧
        Distance current (l.get ⟨k, hk⟩) < bDist ∧
        (∀ j (hj : j < l.length),
          Distance current (l.get ⟨k, hk⟩) ≤ Distance current (l.get ⟨j, hj⟩)) ∧
        (∀ j (hj : j < l.length), j < k →
          Distance current (l.get ⟨k, hk⟩) < Distance current (l.get ⟨j, hj⟩))) := by
  intro l
  induction l with
  | nil =>
    intro i0 bIdx bDist
    left
    exact ⟨rfl, fun k hk => absurd hk (by simp)⟩
  | cons s rest ih =>
    intro i0 bIdx bDist
    by_cases hd : Distance current s < bDist
    · have heq : selectNearestAux current (s :: rest) i0 bIdx bDist =
          selectNearestAux current rest (i0 + 1) (i0 : Int) (Distance current s) := by
        simp [selectNearestAux, hd]
      rcases ih (i0 + 1) (i0 : Int) (Distance current s) with ⟨h1, h2⟩ | ⟨k, hk, h1, h2, h3, h4⟩
      · right
        refine ⟨0, by simp, ?_, hd, ?_, ?_⟩
        · rw [heq, h1]
          simp
        · intro j hj
          match j with
          | 0 => simp
          | j + 1 =>
            have hj' : j < rest.length := by simpa using hj
            simpa using h2 j hj'
        · intro j hj hj0
          omega
      · right
        have hk1 : k + 1 < (s :: rest).length := by simpa using Nat.succ_lt_succ hk
        refine ⟨k + 1, hk1, ?_, ?_, ?_, ?_⟩
        · rw [heq, h1]
          have : i0 + 1 + k = i0 + (k + 1) := by omega
          simp [this]
        · have : Distance current (rest.get ⟨k, hk⟩) < Distance current s := h2
          simpa using lt_trans this hd
        · intro j hj
          match j with
          | 0 => simpa using le_of_lt h2
          | j + 1 =>
            have hj' : j < rest.length := by simpa using hj
            simpa using h3 j hj'
        · intro j hj hjk
          match j with
          | 0 => simpa using h2
          | j + 1 =>
            have hj' : j < rest.length := by simpa using hj
            have hjk' : j < k := by omega
            simpa using h4 j hj' hjk'
    · have heq : selectNearestAux current (s :: rest) i0 bIdx bDist =
          selectNearestAux current rest (i0 + 1) bIdx bDist := by
        simp [selectNearestAux, hd]
      push_neg at hd
      rcases ih (i0 + 1) bIdx bDist with ⟨h1, h2⟩ | ⟨k, hk, h1, h2, h3, h4⟩
      · left
        refine ⟨by rw [heq, h1], ?_⟩
        intro k hk
        match k with
        | 0 => simpa using hd
        | k + 1 =>
          have hk' : k < rest.length := by simpa using hk
          simpa using h2 k hk'
      · right
        have hk1 : k + 1 < (s :: rest).length := by simpa using Nat.succ_lt_succ hk
        refine ⟨k + 1, hk1, ?_, h2, ?_, ?_⟩
        · rw [heq, h1]
          have : i0 + 1 + k = i0 + (k + 1) := by omega
          simp [this]
        · intro j hj
          match j with
          | 0 => simpa using le_of_lt (lt_of_lt_of_le h2 hd)
          | j + 1 =>
            have hj' : j < rest.length := by simpa using hj
            simpa using h3 j hj'
        · intro j hj hjk
          match j with
          | 0 => simpa using lt_of_lt_of_le h2 hd
          | j + 1 =>
            have hj' : j < rest.length := by simpa using hj
            have hjk' : j < k := by omega
            simpa using h4 j hj' hjk'

theorem selectNearest_spec (current : Coordinate) (remaining : List Coordinate)
    (h : remaining ≠ []) :
    ∃ k, ∃ hk : k < remaining.length,
      selectNearest current remaining =
        ((k : Int), Distance current (remaining.get ⟨k, hk⟩)) ∧
      (∀ j (hj : j < remaining.length),
        Distance current (remaining.get ⟨k, hk⟩) ≤ Distance current (remaining.get ⟨j, hj⟩)) ∧
      (∀ j (hj : j < remaining.length), j < k →
        Distance current (remaining.get ⟨k, hk⟩) < Distance current (remaining.get ⟨j, hj⟩)) := by
  rcases selectNearestAux_spec current remaining 0 (-1) maxFloat64 with
    ⟨h1, h2⟩ | ⟨k, hk, h1, h2, h3, h4⟩
  · exfalso
    have hlen : 0 < remaining.length := List.length_pos.mpr h
    have hge := h2 0 hlen
    have hlt := Distance_lt_maxFloat64 current (remaining.get ⟨0, hlen⟩)
    linarith
  · refine ⟨k, hk, ?_, h3, h4⟩
    rw [selectNearest, h1]
    simp

/-- Index selected by the Go loop, as a natural number (`nearestIdx`). -/
noncomputable def selIdx (current : Coordinate) (remaining : List Coordinate) : Nat :=
  (selectNearest current remaining).1.toNat

theorem selIdx_lt (current : Coordinate) (remaining : List Coordinate) (h : remaining ≠ []) :
    selIdx current remaining < remaining.length := by
  obtain ⟨k, hk, h1, -, -⟩ := selectNearest_spec current remaining h
  rw [selIdx, h1]
  simpa using hk

theorem length_eraseIdx_lt {α : Type} (l : List α) (i : Nat) (hi : i < l.length) :
    (l.eraseIdx i).length < l.length := by
  rw [List.length_eraseIdx, if_pos hi]
  omega

/-- Main loop of the Go function `SolveTSPNearestNeighbor`: while the pool
`remaining` is non-empty, append the stop selected by the inner scan,
remove it from the pool, and continue from it. -/
noncomputable def solveLoop (current : Coordinate) (remaining : List Coordinate) :
    List Coordinate :=
  if h : remaining.length = 0 then []
  else
    let nextStop := remaining.get
      ⟨selIdx current remaining,
        selIdx_lt current remaining (List.length_pos.mp (Nat.pos_of_ne_zero h))⟩
    nextStop :: solveLoop nextStop (remaining.eraseIdx (selIdx current remaining))
termination_by remaining.length
decreasing_by
  exact length_eraseIdx_lt remaining _
    (selIdx_lt current remaining (List.length_pos.mp (Nat.pos_of_ne_zero h)))

/-- Nearest-neighbour TSP heuristic, translated from the Go function
`SolveTSPNearestNeighbor` (empty stop list short-circuits to an empty
route). -/
noncomputable def SolveTSPNearestNeighbor (start : Coordinate) (stops : List Coordinate) :
    List Coordinate :=
  if stops.length = 0 then [] else solveLoop start stops

theorem get_cons_eraseIdx_perm {α : Type} :
    ∀ (l : List α) (i : Nat) (h : i < l.length), (l.get ⟨i, h⟩ :: l.eraseIdx i).Perm l
  | a :: t, 0, _ => by simp
  | a :: t, i + 1, h => by
    have ht : i < t.length := by simpa using h
    have ih := get_cons_eraseIdx_perm t i ht
    simp only [List.get_cons_succ, List.eraseIdx_cons_succ]
    exact ((List.Perm.swap a (t.get ⟨i, ht⟩) (t.eraseIdx i))).trans (ih.cons a)

theorem solveLoop_perm :
    ∀ (n : Nat) (current : Coordinate) (remaining : List Coordinate),
      remaining.length ≤ n → (solveLoop current remaining).Perm remaining := by
  intro n
  induction n with
  | zero =>
    intro current remaining h
    have he : remaining = [] := List.eq_nil_of_length_eq_zero (Nat.le_zero.mp h)
    subst he
    rw [solveLoop]
    simp
  | succ n ih =>
    intro current remaining h
    rw [solveLoop]
    split
    · rename_i he
      have : remaining = [] := List.length_eq_zero.mp he
      simp [this]
    · rename_i he
      have hne : remaining ≠ [] := List.length_pos.mp (Nat.pos_of_ne_zero he)
      have hk := selIdx_lt current remaining hne
      have hlen : (remaining.eraseIdx (selIdx current remaining)).length ≤ n := by
        have h1 := length_eraseIdx_lt remaining (selIdx current remaining) hk
        omega
      exact ((ih _ _ hlen).cons _).trans (get_cons_eraseIdx_perm remaining _ hk)

/-- C1: for every start coordinate and every list of stops, the route
sequencer returns a permutation of the input stops (same length, same
multiset of stops, so no duplicates and no omissions relative to the
input); an empty stop list yields an empty route. -/
theorem C1_solve_is_permutation (start : Coordinate) (stops : List Coordinate) :
    (SolveTSPNearestNeighbor start stops).Perm stops ∧
    (SolveTSPNearestNeighbor start stops).length = stops.length ∧
    SolveTSPNearestNeighbor start [] = [] := by
  have hperm : (SolveTSPNearestNeighbor start stops).Perm stops := by
    rw [SolveTSPNearestNeighbor]
    split
    · rename_i he
      have : stops = [] := List.length_eq_zero.mp he
      simp [this]
    · exact solveLoop_perm stops.length start stops le_rfl
  exact ⟨hperm, hperm.length_eq, by simp [SolveTSPNearestNeighbor]⟩

theorem solveLoop_cons_of_selIdx (current : Coordinate) (remaining : List Coordinate)
    (h : remaining ≠ []) (k : Nat) (hk : k < remaining.length)
    (hsel : selIdx current remaining = k) :
    solveLoop current remaining =
      remaining.get ⟨k, hk⟩ ::
        solveLoop (remaining.get ⟨k, hk⟩) (remaining.eraseIdx k) := by
  subst hsel
  rw [solveLoop, dif_neg (by have := List.length_pos.mpr h; omega)]

/-- C4: at every iteration of the sequencer loop with a non-empty pool of
unvisited stops, the stop appended next realizes the minimum haversine
distance from the current position, earlier pool positions (which preserve
the original input order) being strictly farther — i.e. ties are broken in
favour of the stop appearing earliest — and the selected stop becomes the
new current position for the rest of the loop. -/
theorem C4_loop_picks_nearest_with_earliest_tiebreak (current : Coordinate)
    (remaining : List Coordinate) (h : remaining ≠ []) :
    ∃ k, ∃ hk : k < remaining.length,
      solveLoop current remaining =
        remaining.get ⟨k, hk⟩ ::
          solveLoop (remaining.get ⟨k, hk⟩) (remaining.eraseIdx k) ∧
      (∀ j (hj : j < remaining.length),
        Distance current (remaining.get ⟨k, hk⟩) ≤
          Distance current (remaining.get ⟨j, hj⟩)) ∧
      (∀ j (hj : j < remaining.length), j < k →
        Distance current (remaining.get ⟨k, hk⟩) <
          Distance current (remaining.get ⟨j, hj⟩)) := by
  obtain ⟨k, hk, h1, h2, h3⟩ := selectNearest_spec current remaining h
  have hsel : selIdx current remaining = k := by
    rw [selIdx, h1]
    simp
  exact ⟨k, hk, solveLoop_cons_of_selIdx current remaining h k hk hsel, h2, h3⟩

/-- Witness for C4 at a concrete one-element pool. -/
theorem C4_loop_picks_nearest_with_earliest_tiebreak_witness :
    ([(⟨10, 20, "A"⟩ : Coordinate)] ≠ ([] : List Coordinate)) ∧
    (∃ k, ∃ hk : k < [(⟨10, 20, "A"⟩ : Coordinate)].length,
      solveLoop ⟨0, 0, "S"⟩ [⟨10, 20, "A"⟩] =
        [(⟨10, 20, "A"⟩ : Coordinate)].get ⟨k, hk⟩ ::
          solveLoop ([(⟨10, 20, "A"⟩ : Coordinate)].get ⟨k, hk⟩)
            ([(⟨10, 20, "A"⟩ : Coordinate)].eraseIdx k) ∧
      (∀ j (hj : j < [(⟨10, 20, "A"⟩ : Coordinate)].length),
        Distance ⟨0, 0, "S"⟩ ([(⟨10, 20, "A"⟩ : Coordinate)].get ⟨k, hk⟩) ≤
          Distance ⟨0, 0, "S"⟩ ([(⟨10, 20, "A"⟩ : Coordinate)].get ⟨j, hj⟩)) ∧
      (∀ j (hj : j < [(⟨10, 20, "A"⟩ : Coordinate)].length), j < k →
        Distance ⟨0, 0, "S"⟩ ([(⟨10, 20, "A"⟩ : Coordinate)].get ⟨k, hk⟩) <
          Distance ⟨0, 0, "S"⟩ ([(⟨10, 20, "A"⟩ : Coordinate)].get ⟨j, hj⟩))) :=
  ⟨by simp, C4_loop_picks_nearest_with_earliest_tiebreak ⟨0, 0, "S"⟩ [⟨10, 20, "A"⟩] (by simp)⟩

/-- Shipment (load), from the spec data model (§3) and the Go `LoadRequest`
payload: an id and a weight in kilograms, idealized as a rational. -/
structure Shipment where
  id : String
  weightKg : ℚ
deriving DecidableEq

/-- Vehicle (bin), from the spec data model (§3): an id and a capacity in
kilograms, idealized as a rational. -/
structure Vehicle where
  id : String
  capacityKg : ℚ
deriving DecidableEq

/-- Input payload of `/optimize-load`, decoded by `OptimizeLoadHandler`. -/
structure LoadRequest where
  vehicles : List Vehicle
  shipments : List Shipment
deriving DecidableEq

/-- Result of the fleet load allocator, from the spec data model (§3):
an ordered list of shipment ids per vehicle id, plus the unassigned ids. -/
structure Allocation where
  assignments : List (String × List String)
  unassigned : List String
deriving DecidableEq

/-- Per-vehicle working state of the allocator: the vehicle, its remaining
capacity, and the shipments assigned to it in order. -/
structure VehState where
  vehicle : Vehicle
  remaining : ℚ
  assigned : List Shipment
deriving DecidableEq

/-- Modelled from the spec: insertion step of the §4.4 sort
(`OptimizeFleetAllocation` lives in the optimization service's internal
solver package, which is not part of the repository snapshot).  A shipment
goes before the first strictly lighter one, hence after any equal-weight
shipment already placed. -/
def insertByWeight (s : Shipment) : List Shipment → List Shipment
  | [] => [s]
  | t :: rest =>
    if t.weightKg < s.weightKg then s :: t :: rest else t :: insertByWeight s rest

/-- Modelled from the spec: sort shipments by weight descending, ties
broken by original input order (stable), §4.4.  Shipments are inserted
left to right, each landing after the equal-weight shipments inserted
before it, so equal weights keep their input order. -/
def sortByWeightDesc (l : List Shipment) : List Shipment :=
  l.foldl (fun acc s => insertByWeight s acc) []

/-- Modelled from the spec: the best-fit scan of §4.4 — among vehicles
whose remaining capacity is at least `w`, keep the index and remaining
capacity of the tightest one seen so far, earlier vehicles winning ties. -/
def bestFitAux (w : ℚ) : List VehState → Nat → Option (Nat × ℚ) → Option (Nat × ℚ)
  | [], _, best => best
  | v :: rest, i, none =>
    bestFitAux w rest (i + 1) (if w ≤ v.remaining then some (i, v.remaining) else none)
  | v :: rest, i, some b =>
    bestFitAux w rest (i + 1)
      (if w ≤ v.remaining ∧ v.remaining < b.2 then some (i, v.remaining) else some b)

/-- Modelled from the spec: best-fit vehicle for weight `w`, if any. -/
def bestFit (w : ℚ) (vs : List VehState) : Option (Nat × ℚ) :=
  bestFitAux w vs 0 none

/-- Assign a shipment to a vehicle state: subtract its weight from the
remaining capacity and append it to the vehicle's list. -/
def addShip (s : Shipment) (v : VehState) : VehState :=
  { vehicle := v.vehicle, remaining := v.remaining - s.weightKg,
    assigned := v.assigned ++ [s] }

/-- Apply `f` to the element at position `i`, leaving the rest unchanged. -/
def updateAt (f : VehState → VehState) : List VehState → Nat → List VehState
  | [], _ => []
  | v :: rest, 0 => f v :: rest
  | v :: rest, i + 1 => v :: updateAt f rest i

/-- Modelled from the spec: one assignment step of §4.4 — place the
shipment on the best-fit vehicle when one fits, otherwise append its id to
the unassigned list (a normal outcome, not an error). -/
def allocStep (st : List VehState × List String) (s : Shipment) :
    List VehState × List String :=
  match bestFit s.weightKg st.1 with
  | some b => (updateAt (addShip s) st.1 b.1, st.2)
  | none => (st.1, st.2 ++ [s.id])

/-- Initial allocator state: every vehicle with its full capacity free. -/
def initStates (vehicles : List Vehicle) : List VehState :=
  vehicles.map (fun v => ⟨v, v.capacityKg, []⟩)

/-- Modelled from the spec: full run of the best-fit-decreasing allocator
of §4.4 over the sorted shipments, returning the final vehicle states and
the unassigned shipment ids. -/
def allocRun (req : LoadRequest) : List VehState × List String :=
  (sortByWeightDesc req.shipments).foldl allocStep (initStates req.vehicles, [])

/-- Modelled from the spec: `OptimizeFleetAllocation` — the allocation
returned to the boundary, read off the final allocator state. -/
def OptimizeFleetAllocation (req : LoadRequest) : Allocation :=
  { assignments :=
      (allocRun req).1.map (fun vs => (vs.vehicle.id, vs.assigned.map Shipment.id)),
    unassigned := (allocRun req).2 }

/-- Allocator state after the first `k` assignment steps. -/
def allocAfter (req : LoadRequest) (k : Nat) : List VehState × List String :=
  ((sortByWeightDesc req.shipments).take k).foldl allocStep (initStates req.vehicles, [])

/-- Total weight of a list of shipments. -/
def sumWeights (l : List Shipment) : ℚ := (l.map Shipment.weightKg).sum

/-- Allocator invariant for one vehicle state: the remaining capacity is
the capacity minus the assigned weight, and it is non-negative. -/
def VehInv (v : VehState) : Prop :=
  v.remaining = v.vehicle.capacityKg - sumWeights v.assigned ∧ 0 ≤ v.remaining

theorem bestFitAux_some (w : ℚ) :
    ∀ (vs : List VehState) (i0 : Nat) (acc : Option (Nat × ℚ)) (b : Nat × ℚ),
      bestFitAux w vs i0 acc = some b →
      acc = some b ∨
      ∃ k, ∃ hk : k < vs.length,
        b = (i0 + k, (vs.get ⟨k, hk⟩).remaining) ∧ w ≤ (vs.get ⟨k, hk⟩).remaining := by
  intro vs
  induction vs with
  | nil =>
    intro i0 acc b h
    left
    exact h
  | cons v rest ih =>
    intro i0 acc b h
    match acc with
    | none =>
      rw [show bestFitAux w (v :: rest) i0 none =
        bestFitAux w rest (i0 + 1)
          (if w ≤ v.remaining then some (i0, v.remaining) else none) from rfl] at h
      rcases ih (i0 + 1) _ b h with hacc | ⟨k, hk, hb, hw⟩
      · by_cases hfit : w ≤ v.remaining
        · rw [if_pos hfit] at hacc
          right
          refine ⟨0, by simp, ?_, by simpa using hfit⟩
          simpa using hacc.symm
        · rw [if_neg hfit] at hacc
          exact absurd hacc (by simp)
      · right
        have hk1 : k + 1 < (v :: rest).length := by simpa using Nat.succ_lt_succ hk
        refine ⟨k + 1, hk1, ?_, by simpa using hw⟩
        rw [hb]
        have : i0 + 1 + k = i0 + (k + 1) := by omega
        simp [this]
    | some a =>
      rw [show bestFitAux w (v :: rest) i0 (some a) =
        bestFitAux w rest (i0 + 1)
          (if w ≤ v.remaining ∧ v.remaining < a.2 then
            some (i0, v.remaining) else some a) from rfl] at h
      rcases ih (i0 + 1) _ b h with hacc | ⟨k, hk, hb, hw⟩
      · by_cases hfit : w ≤ v.remaining ∧ v.remaining < a.2
        · rw [if_pos hfit] at hacc
          right
          refine ⟨0, by simp, ?_, by simpa using hfit.1⟩
          simpa using hacc.symm
        · rw [if_neg hfit] at hacc
          left
          exact hacc
      · right
        have hk1 : k + 1 < (v :: rest).length := by simpa using Nat.succ_lt_succ hk
        refine ⟨k + 1, hk1, ?_, by simpa using hw⟩
        rw [hb]
        have : i0 + 1 + k = i0 + (k + 1) := by omega
        simp [this]

theorem bestFit_some (w : ℚ) (vs : List VehState) (b : Nat × ℚ)
    (h : bestFit w vs = some b) :
    ∃ hk : b.1 < vs.length,
      b.2 = (vs.get ⟨b.1, hk⟩).remaining ∧ w ≤ (vs.get ⟨b.1, hk⟩).remaining := by
  rcases bestFitAux_some w vs 0 none b h with hacc | ⟨k, hk, hb, hw⟩
  · exact absurd hacc (by simp)
  · have hb1 : b.1 = k := by rw [hb]; simp
    have hb2 : b.2 = (vs.get ⟨k, hk⟩).remaining := by rw [hb]
    subst hb1
    exact ⟨hk, hb2, hw⟩

theorem updateAt_forall {P : VehState → Prop} (f : VehState → VehState) :
    ∀ (l : List VehState) (i : Nat),
      (∀ v ∈ l, P v) → (∀ hi : i < l.length, P (f (l.get ⟨i, hi⟩))) →
      ∀ v ∈ updateAt f l i, P v := by
  intro l
  induction l with
  | nil =>
    intro i _ _ v hv
    simp [updateAt] at hv
  | cons a rest ih =>
    intro i hall hf v hv
    match i with
    | 0 =>
      rw [show updateAt f (a :: rest) 0 = f a :: rest from rfl] at hv
      rcases List.mem_cons.mp hv with rfl | hmem
      · exact hf (by simp)
      · exact hall v (List.mem_cons_of_mem a hmem)
    | i + 1 =>
      rw [show updateAt f (a :: rest) (i + 1) = a :: updateAt f rest i from rfl] at hv
      rcases List.mem_cons.mp hv with rfl | hmem
      · exact hall _ (List.mem_cons_self _ _)
      · refine ih i (fun u hu => hall u (List.mem_cons_of_mem a hu)) ?_ v hmem
        intro hi
        have := hf (by simpa using Nat.succ_lt_succ hi)
        simpa using this

theorem sumWeights_append (l : List Shipment) (s : Shipment) :
    sumWeights (l ++ [s]) = sumWeights l + s.weightKg := by
  simp [sumWeights]

theorem allocStep_inv (st : List VehState × List String) (s : Shipment)
    (h : ∀ v ∈ st.1, VehInv v) : ∀ v ∈ (allocStep st s).1, VehInv v := by
  unfold allocStep
  cases hb : bestFit s.weightKg st.1 with
  | none => simpa using h
  | some b =>
    obtain ⟨hk, hb2, hbw⟩ := bestFit_some s.weightKg st.1 b hb
    simp only
    refine updateAt_forall (addShip s) st.1 b.1 h ?_
    intro hi
    have hv := h (st.1.get ⟨b.1, hi⟩) (st.1.get_mem b.1 hi)
    obtain ⟨heq, hge⟩ := hv
    have hwle : s.weightKg ≤ (st.1.get ⟨b.1, hi⟩).remaining := hbw
    refine ⟨?_, ?_⟩
    · show (st.1.get ⟨b.1, hi⟩).remaining - s.weightKg =
        (st.1.get ⟨b.1, hi⟩).vehicle.capacityKg -
          sumWeights ((st.1.get ⟨b.1, hi⟩).assigned ++ [s])
      rw [sumWeights_append, heq]
      ring
    · show 0 ≤ (st.1.get ⟨b.1, hi⟩).remaining - s.weightKg
      linarith

theorem foldl_allocStep_inv :
    ∀ (ships : List Shipment) (st : List VehState × List String),
      (∀ v ∈ st.1, VehInv v) → ∀ v ∈ (ships.foldl allocStep st).1, VehInv v := by
  intro ships
  induction ships with
  | nil => intro st h; simpa using h
  | cons s rest ih =>
    intro st h
    rw [List.foldl_cons]
    exact ih (allocStep st s) (allocStep_inv st s h)

theorem initStates_inv (vehicles : List Vehicle)
    (hpos : ∀ v ∈ vehicles, 0 < v.capacityKg) :
    ∀ v ∈ initStates vehicles, VehInv v := by
  intro vs hvs
  obtain ⟨v, hv, rfl⟩ := List.mem_map.mp hvs
  exact ⟨by simp [sumWeights], by simpa using le_of_lt (hpos v hv)⟩

/-- C2: under the spec's data-model precondition that every vehicle
capacity is strictly positive (§3), the sum of the weights of the
shipments assigned to each vehicle never exceeds that vehicle's
`capacityKg` — after every individual assignment step (`allocAfter`) and
in the final allocator state that `OptimizeFleetAllocation` reads off. -/
theorem C2_capacity_invariant (req : LoadRequest)
    (hpos : ∀ v ∈ req.vehicles, 0 < v.capacityKg) :
    (∀ k, ∀ vs ∈ (allocAfter req k).1, sumWeights vs.assigned ≤ vs.vehicle.capacityKg) ∧
    (∀ vs ∈ (allocRun req).1, sumWeights vs.assigned ≤ vs.vehicle.capacityKg) := by
  have hinit := initStates_inv req.vehicles hpos
  have key : ∀ (ships : List Shipment),
      ∀ vs ∈ (ships.foldl allocStep (initStates req.vehicles, [])).1,
        sumWeights vs.assigned ≤ vs.vehicle.capacityKg := by
    intro ships vs hvs
    obtain ⟨heq, hge⟩ := foldl_allocStep_inv ships (initStates req.vehicles, [])
      (by simpa using hinit) vs hvs
    linarith
  exact ⟨fun k => key _, key _⟩

/-- Witness for C2 at the spec's concrete scenario (§8): one vehicle of
capacity 100, shipments of weight 60 and 50. -/
theorem C2_capacity_invariant_witness :
    (∀ v ∈ ([⟨"V1", 100⟩] : List Vehicle), 0 < v.capacityKg) ∧
    (∀ vs ∈ (allocRun ⟨[⟨"V1", 100⟩], [⟨"S1", 60⟩, ⟨"S2", 50⟩]⟩).1,
      sumWeights vs.assigned ≤ vs.vehicle.capacityKg) :=
  ⟨by decide, (C2_capacity_invariant ⟨[⟨"V1", 100⟩], [⟨"S1", 60⟩, ⟨"S2", 50⟩]⟩ (by decide)).2⟩


/-- All shipment ids recorded in an allocator state: the ids assigned to
each vehicle, in vehicle order, followed by the unassigned ids. -/
def stateIds (st : List VehState × List String) : List String :=
  (st.1.map (fun vs => vs.assigned.map Shipment.id)).flatten ++ st.2

theorem updateAt_addShip_flatten (s : Shipment) :
    ∀ (l : List VehState) (k : Nat), k < l.length →
      ((updateAt (addShip s) l k).map (fun vs => vs.assigned.map Shipment.id)).flatten.Perm
        ((l.map (fun vs => vs.assigned.map Shipment.id)).flatten ++ [s.id]) := by
  intro l
  induction l with
  | nil =>
    intro k hk
    simp at hk
  | cons v rest ih =>
    intro k hk
    cases k with
    | zero =>
      rw [show updateAt (addShip s) (v :: rest) 0 = addShip s v :: rest from rfl]
      simp only [List.map_cons, List.flatten_cons, addShip]
      rw [List.map_append]
      have h1 : (v.assigned.map Shipment.id ++ [s].map Shipment.id) ++
          (rest.map (fun vs => vs.assigned.map Shipment.id)).flatten =
          v.assigned.map Shipment.id ++
          ([s.id] ++ (rest.map (fun vs => vs.assigned.map Shipment.id)).flatten) := by
        simp [List.append_assoc]
      have h2 : (v.assigned.map Shipment.id ++
          (rest.map (fun vs => vs.assigned.map Shipment.id)).flatten) ++ [s.id] =
          v.assigned.map Shipment.id ++
          ((rest.map (fun vs => vs.assigned.map Shipment.id)).flatten ++ [s.id]) := by
        simp [List.append_assoc]
      rw [h1, h2]
      exact List.Perm.append_left _ List.perm_append_comm
    | succ k =>
      rw [show updateAt (addShip s) (v :: rest) (k + 1) =
        v :: updateAt (addShip s) rest k from rfl]
      simp only [List.map_cons, List.flatten_cons]
      have hk' : k < rest.length := by simpa using hk
      have h2 : (v.assigned.map Shipment.id ++
          (rest.map (fun vs => vs.assigned.map Shipment.id)).flatten) ++ [s.id] =
          v.assigned.map Shipment.id ++
          ((rest.map (fun vs => vs.assigned.map Shipment.id)).flatten ++ [s.id]) := by
        simp [List.append_assoc]
      rw [h2]
      exact List.Perm.append_left _ (ih k hk')

theorem allocStep_stateIds (st : List VehState × List String) (s : Shipment) :
    (stateIds (allocStep st s)).Perm (stateIds st ++ [s.id]) := by
  unfold allocStep
  cases hb : bestFit s.weightKg st.1 with
  | none =>
    simp only [stateIds]
    simp [List.append_assoc]
  | some b =>
    obtain ⟨hk, -, -⟩ := bestFit_some s.weightKg st.1 b hb
    simp only [stateIds]
    have step1 : (((updateAt (addShip s) st.1 b.1).map
        (fun vs => vs.assigned.map Shipment.id)).flatten ++ st.2).Perm
        (((st.1.map (fun vs => vs.assigned.map Shipment.id)).flatten ++ [s.id]) ++ st.2) :=
      List.Perm.append_right _ (updateAt_addShip_flatten s st.1 b.1 hk)
    have step2 : (((st.1.map (fun vs => vs.assigned.map Shipment.id)).flatten ++ [s.id])
        ++ st.2).Perm
        (((st.1.map (fun vs => vs.assigned.map Shipment.id)).flatten ++ st.2) ++ [s.id]) := by
      have e1 : ((st.1.map (fun vs => vs.assigned.map Shipment.id)).flatten ++ [s.id])
          ++ st.2 =
          (st.1.map (fun vs => vs.assigned.map Shipment.id)).flatten ++ ([s.id] ++ st.2) := by
        simp [List.append_assoc]
      have e2 : ((st.1.map (fun vs => vs.assigned.map Shipment.id)).flatten ++ st.2)
          ++ [s.id] =
          (st.1.map (fun vs => vs.assigned.map Shipment.id)).flatten ++ (st.2 ++ [s.id]) := by
        simp [List.append_assoc]
      rw [e1, e2]
      exact List.Perm.append_left _ List.perm_append_comm
    exact step1.trans step2

theorem foldl_allocStep_stateIds :
    ∀ (ships : List Shipment) (st : List VehState × List String),
      (stateIds (ships.foldl allocStep st)).Perm (stateIds st ++ ships.map Shipment.id) := by
  intro ships
  induction ships with
  | nil => intro st; simp
  | cons s rest ih =>
    intro st
    rw [List.foldl_cons]
    have h1 : (stateIds (rest.foldl allocStep (allocStep st s))).Perm
        (stateIds (allocStep st s) ++ rest.map Shipment.id) := ih (allocStep st s)
    have h2 : (stateIds (allocStep st s) ++ rest.map Shipment.id).Perm
        ((stateIds st ++ [s.id]) ++ rest.map Shipment.id) :=
      List.Perm.append_right _ (allocStep_stateIds st s)
    have h3 : (stateIds st ++ [s.id]) ++ rest.map Shipment.id =
        stateIds st ++ (s :: rest).map Shipment.id := by
      simp [List.append_assoc]
    exact (h1.trans h2).trans (by rw [h3])

theorem insertByWeight_perm (s : Shipment) :
    ∀ (l : List Shipment), (insertByWeight s l).Perm (s :: l) := by
  intro l
  induction l with
  | nil => simp [insertByWeight]
  | cons t rest ih =>
    rw [insertByWeight]
    split
    · exact List.Perm.refl _
    · exact (ih.cons t).trans (List.Perm.swap s t rest)

theorem foldl_insertByWeight_perm :
    ∀ (l : List Shipment) (acc : List Shipment),
      (l.foldl (fun acc s => insertByWeight s acc) acc).Perm (acc ++ l) := by
  intro l
  induction l with
  | nil => intro acc; simp
  | cons s rest ih =>
    intro acc
    rw [List.foldl_cons]
    refine (ih (insertByWeight s acc)).trans ?_
    refine (List.Perm.append_right rest (insertByWeight_perm s acc)).trans ?_
    exact List.perm_middle.symm

theorem sortByWeightDesc_perm (l : List Shipment) : (sortByWeightDesc l).Perm l := by
  have h := foldl_insertByWeight_perm l []
  simpa [sortByWeightDesc] using h

theorem sortByWeightDesc_stable_pair :
    sortByWeightDesc [⟨"A", 50⟩, ⟨"B", 50⟩] = [⟨"A", 50⟩, ⟨"B", 50⟩] := by
  decide

theorem stateIds_init (vehicles : List Vehicle) :
    stateIds (initStates vehicles, []) = [] := by
  simp only [stateIds, initStates, List.map_map, List.append_nil]
  induction vehicles with
  | nil => simp
  | cons v rest _ih => simp

/-- C3: the allocation produced by the fleet load allocator conserves
shipments — the multiset of all shipment ids assigned across vehicles
together with the unassigned ids is a permutation of the input shipment
ids, so every input shipment lands in exactly one place and none is
dropped or duplicated. -/
theorem C3_shipment_conservation (req : LoadRequest) :
    ((((OptimizeFleetAllocation req).assignments.map Prod.snd).flatten) ++
      (OptimizeFleetAllocation req).unassigned).Perm (req.shipments.map Shipment.id) := by
  have hids : (((OptimizeFleetAllocation req).assignments.map Prod.snd).flatten) ++
      (OptimizeFleetAllocation req).unassigned = stateIds (allocRun req) := by
    simp only [OptimizeFleetAllocation, stateIds, List.map_map]
    rfl
  rw [hids]
  have h1 : (stateIds (allocRun req)).Perm
      (stateIds (initStates req.vehicles, []) ++
        (sortByWeightDesc req.shipments).map Shipment.id) :=
    foldl_allocStep_stateIds (sortByWeightDesc req.shipments) (initStates req.vehicles, [])
  have h2 : stateIds (initStates req.vehicles, []) ++
      (sortByWeightDesc req.shipments).map Shipment.id =
      (sortByWeightDesc req.shipments).map Shipment.id := by
    rw [stateIds_init]
    simp
  have h3 : ((sortByWeightDesc req.shipments).map Shipment.id).Perm
      (req.shipments.map Shipment.id) :=
    (sortByWeightDesc_perm req.shipments).map Shipment.id
  exact (h1.trans (by rw [h2])).trans h3

/-- HTTP methods relevant to the service. -/
inductive Method
  | GET
  | POST
  | PUT
  | DELETE
deriving DecidableEq

/-- Input payload of `/optimize`, from the Go `OptimizationRequest`. -/
structure OptimizationRequest where
  start : Coordinate
  stops : List Coordinate

/-- Possible responses of `OptimizeRouteHandler`: 405, 400, or 200 with
the computed route. -/
inductive RouteResponse
  | methodNotAllowed
  | badRequest
  | ok (route : List Coordinate)

/-- Possible responses of `OptimizeLoadHandler`: 405, 400, or 200 with
the computed allocation. -/
inductive LoadResponse
  | methodNotAllowed
  | badRequest
  | ok (a : Allocation)
deriving DecidableEq

/-- Boundary of `/optimize`, translated from `OptimizeRouteHandler` in
`internal/api/handlers.go`: non-POST methods get 405, an undecodable body
gets 400, and otherwise the nearest-neighbour sequencer runs on the
decoded request and its result is returned with 200.  The body is given
post-JSON-decoding as an `Option`; no other check happens before the
solver call. -/
noncomputable def OptimizeRouteHandler (m : Method) (body : Option OptimizationRequest) :
    RouteResponse :=
  if m ≠ Method.POST then RouteResponse.methodNotAllowed
  else
    match body with
    | none => RouteResponse.badRequest
    | some req => RouteResponse.ok (SolveTSPNearestNeighbor req.start req.stops)

/-- Boundary of `/optimize-load`, translated from `OptimizeLoadHandler` in
`internal/api/handlers.go`: non-POST methods get 405, an undecodable body
gets 400, a shipment with non-positive weight gets 400 ("Shipment weight
must be positive"), and otherwise the allocator runs.  The source checks
only shipment weights; vehicle capacities are not validated. -/
def OptimizeLoadHandler (m : Method) (body : Option LoadRequest) : LoadResponse :=
  if m ≠ Method.POST then LoadResponse.methodNotAllowed
  else
    match body with
    | none => LoadResponse.badRequest
    | some req =>
      if req.shipments.any (fun s => decide (s.weightKg ≤ 0)) then LoadResponse.badRequest
      else LoadResponse.ok (OptimizeFleetAllocation req)

/-- Minimal HTTP response: status code and body. -/
structure HttpResponse where
  status : Nat
  body : String
deriving DecidableEq

/-- Translated from `HealthHandler` in `internal/api/handlers.go`: write
status 200 and body "OK" without inspecting the request at all (in
particular, no method check). -/
def HealthHandler (_m : Method) : HttpResponse :=
  { status := 200, body := "OK" }

/-- Fixed coordinate used for concrete boundary inputs (Mumbai, the
default start location in the repository). -/
noncomputable def mumbai : Coordinate :=
  { lat := 19.076, lon := 72.8777, id := "start" }

/-- C10: the health handler returns status 200 with body "OK" for every
request regardless of HTTP method — unlike the two optimize handlers,
which answer 405 to a non-POST method such as DELETE — so even a POST or
DELETE to /health succeeds unconditionally. -/
theorem C10_health_ignores_method :
    (∀ m : Method, HealthHandler m = { status := 200, body := "OK" }) ∧
    HealthHandler Method.POST = { status := 200, body := "OK" } ∧
    HealthHandler Method.DELETE = { status := 200, body := "OK" } ∧
    OptimizeRouteHandler Method.DELETE none = RouteResponse.methodNotAllowed ∧
    OptimizeLoadHandler Method.DELETE none = LoadResponse.methodNotAllowed := by
  refine ⟨fun m => rfl, rfl, rfl, rfl, rfl⟩

/-- C7: both solvers are deterministic — two invocations of the route
sequencer with identical start and stop list, and two invocations of the
load allocator with identical requests, produce identical outputs: both
are pure functions of their input, retaining no state between calls. -/
theorem C7_solvers_deterministic (s1 s2 : Coordinate) (st1 st2 : List Coordinate)
    (r1 r2 : LoadRequest) (hs : s1 = s2) (hst : st1 = st2) (hr : r1 = r2) :
    SolveTSPNearestNeighbor s1 st1 = SolveTSPNearestNeighbor s2 st2 ∧
    OptimizeFleetAllocation r1 = OptimizeFleetAllocation r2 := by
  subst hs
  subst hst
  subst hr
  exact ⟨rfl, rfl⟩

/-- Witness for C7 at concrete inputs. -/
theorem C7_solvers_deterministic_witness :
    (mumbai = mumbai) ∧ ([mumbai] = [mumbai]) ∧
    ((⟨[⟨"V1", 100⟩], [⟨"S1", 60⟩]⟩ : LoadRequest) = ⟨[⟨"V1", 100⟩], [⟨"S1", 60⟩]⟩) ∧
    (SolveTSPNearestNeighbor mumbai [mumbai] = SolveTSPNearestNeighbor mumbai [mumbai] ∧
      OptimizeFleetAllocation ⟨[⟨"V1", 100⟩], [⟨"S1", 60⟩]⟩ =
        OptimizeFleetAllocation ⟨[⟨"V1", 100⟩], [⟨"S1", 60⟩]⟩) :=
  ⟨rfl, rfl, rfl,
    C7_solvers_deterministic mumbai mumbai [mumbai] [mumbai] _ _ rfl rfl rfl⟩

/-- C5 counterexample: a well-formed POST body whose only vehicle has
capacity -5 (≤ 0) and whose only shipment weighs 10 is NOT rejected with
400 — `OptimizeLoadHandler` validates shipment weights only, so the
allocator still runs and the response is 200. -/
theorem C5_counterexample_capacity_not_validated :
    (∃ v ∈ (⟨[⟨"V1", -5⟩], [⟨"S1", 10⟩]⟩ : LoadRequest).vehicles, v.capacityKg ≤ 0) ∧
    OptimizeLoadHandler Method.POST (some ⟨[⟨"V1", -5⟩], [⟨"S1", 10⟩]⟩) =
      LoadResponse.ok (OptimizeFleetAllocation ⟨[⟨"V1", -5⟩], [⟨"S1", 10⟩]⟩) ∧
    OptimizeLoadHandler Method.POST (some ⟨[⟨"V1", -5⟩], [⟨"S1", 10⟩]⟩) ≠
      LoadResponse.badRequest := by
  refine ⟨?_, ?_, ?_⟩
  · decide
  · decide
  · decide

/-- C5 (amended): the /optimize-load boundary rejects a decoded POST body
with 400 exactly when some shipment weight is ≤ 0 (and rejects an
undecodable body with 400); vehicle capacities are never validated, and
the allocator is invoked whenever the body decodes and every shipment
weight is strictly positive — even when some vehicle capacity is ≤ 0. -/
theorem C5_amended_weight_only_validation (req : LoadRequest) :
    (OptimizeLoadHandler Method.POST (some req) = LoadResponse.badRequest ↔
      ∃ s ∈ req.shipments, s.weightKg ≤ 0) ∧
    ((∀ s ∈ req.shipments, 0 < s.weightKg) →
      OptimizeLoadHandler Method.POST (some req) =
        LoadResponse.ok (OptimizeFleetAllocation req)) ∧
    OptimizeLoadHandler Method.POST none = LoadResponse.badRequest := by
  have hm : OptimizeLoadHandler Method.POST (some req) =
      (if req.shipments.any (fun s => decide (s.weightKg ≤ 0)) then LoadResponse.badRequest
        else LoadResponse.ok (OptimizeFleetAllocation req)) := rfl
  refine ⟨?_, ?_, rfl⟩
  · rw [hm]
    by_cases hany : req.shipments.any (fun s => decide (s.weightKg ≤ 0)) = true
    · rw [if_pos hany]
      simp only [List.any_eq_true, decide_eq_true_eq] at hany
      exact ⟨fun _ => hany, fun _ => rfl⟩
    · rw [if_neg hany]
      simp only [List.any_eq_true, decide_eq_true_eq, not_exists] at hany
      constructor
      · intro hcontra
        exact absurd hcontra (by simp)
      · rintro ⟨s, hs, hle⟩
        exact absurd ⟨hs, hle⟩ (hany s)
  · intro hpos
    have hany : req.shipments.any (fun s => decide (s.weightKg ≤ 0)) = false := by
      rw [List.any_eq_false]
      intro s hs
      simp only [decide_eq_true_eq]
      exact not_le.mpr (hpos s hs)
    rw [hm, hany]
    simp

/-- Witness for C5 (amended) at a concrete all-positive request that also
carries a non-positive vehicle capacity. -/
theorem C5_amended_weight_only_validation_witness :
    (∀ s ∈ (⟨[⟨"V1", -5⟩], [⟨"S1", 10⟩]⟩ : LoadRequest).shipments, 0 < s.weightKg) ∧
    OptimizeLoadHandler Method.POST (some ⟨[⟨"V1", -5⟩], [⟨"S1", 10⟩]⟩) =
      LoadResponse.ok (OptimizeFleetAllocation ⟨[⟨"V1", -5⟩], [⟨"S1", 10⟩]⟩) :=
  ⟨by decide,
    (C5_amended_weight_only_validation ⟨[⟨"V1", -5⟩], [⟨"S1", 10⟩]⟩).2.1 (by decide)⟩

theorem loadHandler_runs_allocator_of_pos (req : LoadRequest)
    (hpos : ∀ s ∈ req.shipments, 0 < s.weightKg) :
    OptimizeLoadHandler Method.POST (some req) =
      LoadResponse.ok (OptimizeFleetAllocation req) := by
  have hany : req.shipments.any (fun s => decide (s.weightKg ≤ 0)) = false := by
    rw [List.any_eq_false]
    intro s hs
    simp only [decide_eq_true_eq]
    exact not_le.mpr (hpos s hs)
  have hm : OptimizeLoadHandler Method.POST (some req) =
      (if req.shipments.any (fun s => decide (s.weightKg ≤ 0)) then LoadResponse.badRequest
        else LoadResponse.ok (OptimizeFleetAllocation req)) := rfl
  rw [hm, hany]
  simp

/-- C9 counterexample: a POST to /optimize carrying 300 stops and a POST
to /optimize-load carrying 300 positive-weight shipments — both beyond the
spec's ~200 guidance — are not rejected with any "too large" status; each
handler's only outcomes are 405, 400 and 200, and on these oversized
inputs the sequencer and the allocator are invoked and their results
returned with 200. -/
theorem C9_counterexample_no_size_limit :
    (OptimizeRouteHandler Method.POST
        (some { start := mumbai, stops := List.replicate 300 mumbai }) =
      RouteResponse.ok (SolveTSPNearestNeighbor mumbai (List.replicate 300 mumbai)) ∧
      OptimizeRouteHandler Method.POST
          (some { start := mumbai, stops := List.replicate 300 mumbai }) ≠
        RouteResponse.badRequest ∧
      OptimizeRouteHandler Method.POST
          (some { start := mumbai, stops := List.replicate 300 mumbai }) ≠
        RouteResponse.methodNotAllowed ∧
      200 < (List.replicate 300 mumbai).length) ∧
    (OptimizeLoadHandler Method.POST
        (some { vehicles := [⟨"V1", 100⟩],
                shipments := List.replicate 300 ⟨"S1", 1⟩ }) =
      LoadResponse.ok (OptimizeFleetAllocation
        { vehicles := [⟨"V1", 100⟩], shipments := List.replicate 300 ⟨"S1", 1⟩ }) ∧
      OptimizeLoadHandler Method.POST
          (some { vehicles := [⟨"V1", 100⟩],
                  shipments := List.replicate 300 ⟨"S1", 1⟩ }) ≠
        LoadResponse.badRequest ∧
      OptimizeLoadHandler Method.POST
          (some { vehicles := [⟨"V1", 100⟩],
                  shipments := List.replicate 300 ⟨"S1", 1⟩ }) ≠
        LoadResponse.methodNotAllowed ∧
      200 < (List.replicate 300 (⟨"S1", 1⟩ : Shipment)).length) := by
  have hpos : ∀ s ∈ List.replicate 300 (⟨"S1", (1 : ℚ)⟩ : Shipment), 0 < s.weightKg := by
    intro s hs
    rw [List.eq_of_mem_replicate hs]
    show (0 : ℚ) < 1
    norm_num
  have hroute : OptimizeRouteHandler Method.POST
      (some { start := mumbai, stops := List.replicate 300 mumbai }) =
      RouteResponse.ok (SolveTSPNearestNeighbor mumbai (List.replicate 300 mumbai)) := rfl
  have hload := loadHandler_runs_allocator_of_pos
    { vehicles := [⟨"V1", 100⟩], shipments := List.replicate 300 ⟨"S1", 1⟩ } hpos
  refine ⟨⟨hroute, ?_, ?_, by rw [List.length_replicate]; omega⟩,
    hload, ?_, ?_, by rw [List.length_replicate]; omega⟩
  · rw [hroute]
    intro hcontra
    exact RouteResponse.noConfusion hcontra
  · rw [hroute]
    intro hcontra
    exact RouteResponse.noConfusion hcontra
  · rw [hload]
    intro hcontra
    exact LoadResponse.noConfusion hcontra
  · rw [hload]
    intro hcontra
    exact LoadResponse.noConfusion hcontra

/-- C9 (amended): the boundary applies no size check in either handler —
the /optimize handler invokes the sequencer and returns its result with
200 for every decoded request regardless of stop count, and the
/optimize-load handler invokes the allocator and returns its result with
200 for every decoded request regardless of shipment count once its
weight validation passes (every weight positive); no "too large"
rejection path exists in the handlers. -/
theorem C9_amended_no_boundary_size_check (req : OptimizationRequest)
    (lreq : LoadRequest) :
    OptimizeRouteHandler Method.POST (some req) =
      RouteResponse.ok (SolveTSPNearestNeighbor req.start req.stops) ∧
    ((∀ s ∈ lreq.shipments, 0 < s.weightKg) →
      OptimizeLoadHandler Method.POST (some lreq) =
        LoadResponse.ok (OptimizeFleetAllocation lreq)) :=
  ⟨rfl, fun hpos => loadHandler_runs_allocator_of_pos lreq hpos⟩

/-- Witness for C9 (amended) at oversized concrete requests: 300 stops
for the sequencer and 300 shipments of weight 1 for the allocator. -/
theorem C9_amended_no_boundary_size_check_witness :
    (∀ s ∈ List.replicate 300 (⟨"S1", (1 : ℚ)⟩ : Shipment), 0 < s.weightKg) ∧
    OptimizeRouteHandler Method.POST
        (some { start := mumbai, stops := List.replicate 300 mumbai }) =
      RouteResponse.ok (SolveTSPNearestNeighbor mumbai (List.replicate 300 mumbai)) ∧
    OptimizeLoadHandler Method.POST
        (some { vehicles := [⟨"V1", 100⟩],
                shipments := List.replicate 300 ⟨"S1", 1⟩ }) =
      LoadResponse.ok (OptimizeFleetAllocation
        { vehicles := [⟨"V1", 100⟩], shipments := List.replicate 300 ⟨"S1", 1⟩ }) :=
  ⟨fun s hs => by rw [List.eq_of_mem_replicate hs]; decide,
    (C9_amended_no_boundary_size_check
      { start := mumbai, stops := List.replicate 300 mumbai }
      { vehicles := [⟨"V1", 100⟩], shipments := List.replicate 300 ⟨"S1", 1⟩ }).1,
    (C9_amended_no_boundary_size_check
      { start := mumbai, stops := List.replicate 300 mumbai }
      { vehicles := [⟨"V1", 100⟩], shipments := List.replicate 300 ⟨"S1", 1⟩ }).2
      (fun s hs => by rw [List.eq_of_mem_replicate hs]; decide)⟩

/-- Kind of a route waypoint: pickup or drop. -/
inductive WaypointKind
  | pickup
  | drop
deriving DecidableEq

/-- Waypoint of a produced route as consumed by the route validator:
identifier, kind, owning shipment, and position in the sequence. -/
structure RouteWaypoint where
  id : String
  kind : WaypointKind
  shipmentId : String
  order : Nat
deriving DecidableEq

/-- Validation outcome of a produced route. -/
structure ValidationResult where
  isValid : Bool
  errors : List String
deriving DecidableEq

/-- Modelled from the spec: `validateRouteSequence` (§4.3; the function
lives in `backend/src/utils/tsp.ts`, which is not part of the repository
snapshot — only its caller `optimizeTripSheetRoute` is).  It reports
duplicate waypoint identifiers, every drop whose order is not strictly
greater than that of a pickup of the same shipment, and a waypoint count
that does not match complete pickup/drop pairs; `isValid` is the absence
of errors. -/
def validateRouteSequence (wps : List RouteWaypoint) : ValidationResult :=
  let dupErrors : List String :=
    if (wps.map RouteWaypoint.id).Nodup then [] else ["duplicate waypoint identifiers"]
  let orderErrors : List String := wps.filterMap fun w =>
    if w.kind = WaypointKind.drop ∧ ∃ p ∈ wps, p.kind = WaypointKind.pickup ∧
        p.shipmentId = w.shipmentId ∧ w.order ≤ p.order then
      some ("drop before pickup for shipment " ++ w.shipmentId)
    else none
  let countErrors : List String :=
    if wps.length = 2 * (wps.map RouteWaypoint.shipmentId).dedup.length then []
    else ["waypoint count does not match pickup and drop pairs"]
  let errors := dupErrors ++ orderErrors ++ countErrors
  { isValid := errors.isEmpty, errors := errors }

/-- Shape of the route returned by `optimizeTripSheetRoute`
(`routing.service.ts`): the sequenced waypoints plus the validation
verdict. -/
structure OptimizedRoute where
  waypoints : List RouteWaypoint
  isValid : Bool
  errors : List String
deriving DecidableEq

/-- Final stage of `optimizeTripSheetRoute` (`routing.service.ts`, present
in the snapshot): the optimized waypoints are validated and then always
returned, with `isValid` and `errors` copied from the validation result —
a validation failure never blocks the response. -/
def buildOptimizedRoute (wps : List RouteWaypoint) : OptimizedRoute :=
  let validation := validateRouteSequence wps
  { waypoints := wps, isValid := validation.isValid, errors := validation.errors }

/-- C8: when a produced route contains a drop waypoint whose order is not
strictly greater than the order of a pickup waypoint of the same shipment,
the route is still returned (`waypoints` is untouched) with
`isValid = false` and a non-empty `errors` list describing the
violation. -/
theorem C8_drop_before_pickup_reported_not_blocked (wps : List RouteWaypoint)
    (h : ∃ w ∈ wps, w.kind = WaypointKind.drop ∧ ∃ p ∈ wps,
      p.kind = WaypointKind.pickup ∧ p.shipmentId = w.shipmentId ∧
      ¬ p.order < w.order) :
    (buildOptimizedRoute wps).isValid = false ∧
    (buildOptimizedRoute wps).errors ≠ [] ∧
    (buildOptimizedRoute wps).waypoints = wps := by
  obtain ⟨w, hw, hkind, p, hp, hpk, hpsid, hord⟩ := h
  have hcond : w.kind = WaypointKind.drop ∧ ∃ p ∈ wps, p.kind = WaypointKind.pickup ∧
      p.shipmentId = w.shipmentId ∧ w.order ≤ p.order :=
    ⟨hkind, p, hp, hpk, hpsid, Nat.not_lt.mp hord⟩
  have horder : (wps.filterMap fun w' =>
      if w'.kind = WaypointKind.drop ∧ ∃ p ∈ wps, p.kind = WaypointKind.pickup ∧
          p.shipmentId = w'.shipmentId ∧ w'.order ≤ p.order then
        some ("drop before pickup for shipment " ++ w'.shipmentId)
      else none) ≠ [] := by
    intro hnil
    have hnone := (List.filterMap_eq_nil_iff.mp hnil) w hw
    rw [if_pos hcond] at hnone
    exact Option.noConfusion hnone
  have herr : (validateRouteSequence wps).errors ≠ [] := by
    show ((if (wps.map RouteWaypoint.id).Nodup then ([] : List String)
        else ["duplicate waypoint identifiers"]) ++
      (wps.filterMap fun w' =>
        if w'.kind = WaypointKind.drop ∧ ∃ p ∈ wps, p.kind = WaypointKind.pickup ∧
            p.shipmentId = w'.shipmentId ∧ w'.order ≤ p.order then
          some ("drop before pickup for shipment " ++ w'.shipmentId)
        else none) ++
      (if wps.length = 2 * (wps.map RouteWaypoint.shipmentId).dedup.length then []
        else ["waypoint count does not match pickup and drop pairs"])) ≠ []
    intro hnil
    rcases List.append_eq_nil.mp hnil with ⟨h12, -⟩
    rcases List.append_eq_nil.mp h12 with ⟨-, h2⟩
    exact horder h2
  refine ⟨?_, herr, rfl⟩
  have hproj : (buildOptimizedRoute wps).isValid =
      (validateRouteSequence wps).errors.isEmpty := rfl
  rw [hproj]
  cases herrs : (validateRouteSequence wps).errors with
  | nil => exact absurd herrs herr
  | cons e rest => rfl

/-- Witness for C8 at a concrete two-waypoint route where the drop of
shipment S1 is placed before its pickup. -/
theorem C8_drop_before_pickup_reported_not_blocked_witness :
    (∃ w ∈ [(⟨"drop_S1", WaypointKind.drop, "S1", 0⟩ : RouteWaypoint),
        ⟨"pickup_S1", WaypointKind.pickup, "S1", 1⟩],
      w.kind = WaypointKind.drop ∧
      ∃ p ∈ [(⟨"drop_S1", WaypointKind.drop, "S1", 0⟩ : RouteWaypoint),
          ⟨"pickup_S1", WaypointKind.pickup, "S1", 1⟩],
        p.kind = WaypointKind.pickup ∧ p.shipmentId = w.shipmentId ∧
        ¬ p.order < w.order) ∧
    ((buildOptimizedRoute [⟨"drop_S1", WaypointKind.drop, "S1", 0⟩,
        ⟨"pickup_S1", WaypointKind.pickup, "S1", 1⟩]).isValid = false ∧
      (buildOptimizedRoute [⟨"drop_S1", WaypointKind.drop, "S1", 0⟩,
        ⟨"pickup_S1", WaypointKind.pickup, "S1", 1⟩]).errors ≠ [] ∧
      (buildOptimizedRoute [⟨"drop_S1", WaypointKind.drop, "S1", 0⟩,
        ⟨"pickup_S1", WaypointKind.pickup, "S1", 1⟩]).waypoints =
        [⟨"drop_S1", WaypointKind.drop, "S1", 0⟩,
          ⟨"pickup_S1", WaypointKind.pickup, "S1", 1⟩]) :=
  ⟨by decide,
    C8_drop_before_pickup_reported_not_blocked
      [⟨"drop_S1", WaypointKind.drop, "S1", 0⟩,
        ⟨"pickup_S1", WaypointKind.pickup, "S1", 1⟩] (by decide)⟩
